import Mathlib

/-!
Shallow embedding of scripts/bug_release.py (weekly bug-count report by
severity group for a product release).

The embedding follows the Python source line by line:

* Python list operations that can raise are modelled with Except String:
  list.index raises ValueError, list subscription raises IndexError,
  dict subscription raises KeyError, and max applied to None and an int
  raises TypeError (Python 3 semantics).
* Timestamps are modelled as integers: the source only ever compares the
  parsed datetimes, so any linearly ordered instant type is faithful.
* The bug handler's mutation of the shared dictionaries data_opened,
  sev_lowered_and_increased and sev_increased_after_release is modelled
  by explicit state passing of an AggState value.
-/

/-- SEVERITIES_LIST from bug_release.py (lines 48-56): severities ordered from
lowest to highest; positions in this list are the severity indices used by the
reconstruction algorithm. -/
def SEVERITIES_LIST : List String :=
  ["enhancement", "trivial", "minor", "normal", "major", "critical", "blocker"]

/-- SEVERITIES from bug_release.py (lines 38-46): the dict mapping each raw
severity to its severity group, modelled as an association list. -/
def SEVERITIES : List (String × String) :=
  [("blocker", "blocker+critical+major"),
   ("critical", "blocker+critical+major"),
   ("major", "blocker+critical+major"),
   ("normal", "normal"),
   ("minor", "minor+trivial"),
   ("trivial", "minor+trivial"),
   ("enhancement", "enhancement")]

/-- SEVERITIES_GROUP_LIST from bug_release.py (lines 58-63): the four severity
groups ordered from lowest to highest. -/
def SEVERITIES_GROUP_LIST : List String :=
  ["enhancement", "minor+trivial", "normal", "blocker+critical+major"]

/-- Python list.index for string lists: position of the first occurrence,
ValueError when the element is absent. -/
def pyIndex (x : String) : List String → Except String Nat
  | [] => .error "ValueError: x not in list"
  | y :: l => if y = x then .ok 0 else (pyIndex x l).map (· + 1)

/-- Python list subscription for string lists: the element at the position,
IndexError when the position is out of range. -/
def pyListGet (l : List String) (i : Nat) : Except String String :=
  match l[i]? with
  | some s => .ok s
  | none => .error "IndexError: list index out of range"

/-- Python list subscription where the index variable may still be None, as for
the three severity indices at lines 169-171 of bug_release.py: subscription by
None raises TypeError. -/
def pyListGetOpt (l : List String) (i : Option Nat) : Except String String :=
  match i with
  | none => .error "TypeError: list indices must be integers"
  | some i => pyListGet l i

/-- Python dict subscription, for dicts modelled as association lists:
KeyError when the key is absent. -/
def pyDictGet {β : Type} : List (String × β) → String → Except String β
  | [], _ => .error "KeyError"
  | (k, v) :: rest, key => if k = key then .ok v else pyDictGet rest key

/-- Python dict item assignment, for dicts modelled as association lists: an
existing key keeps its position and gets the new value, a fresh key is appended
(Python dicts preserve insertion order). -/
def pyDictSet {β : Type} : List (String × β) → String → β → List (String × β)
  | [], key, val => [(key, val)]
  | (k, v) :: rest, key, val =>
    if k = key then (k, val) :: rest else (k, v) :: pyDictSet rest key val

/-- Python 3 max applied to a possibly-None value and an int, as at line 145 of
bug_release.py: max(None, n) raises TypeError because None and int do not
compare. -/
def pyMaxOptNat (a : Option Nat) (b : Nat) : Except String Nat :=
  match a with
  | none => .error "TypeError: max of NoneType and int"
  | some a => .ok (max a b)

/-- Decidable equality of Except values with decidable components, so that
runs of the embedded code can be compared on concrete inputs. -/
instance {ε α : Type} [DecidableEq ε] [DecidableEq α] : DecidableEq (Except ε α) := fun a b =>
  match a, b with
  | .error e, .error f => decidable_of_iff (e = f) (by simp)
  | .error _, .ok _ => isFalse (by simp)
  | .ok _, .error _ => isFalse (by simp)
  | .ok a, .ok b => decidable_of_iff (a = b) (by simp)

/-- Calendar date (proleptic Gregorian), the payload of the parsed
creation_time of a bug. -/
structure Date where
  year : Nat
  month : Nat
  day : Nat
deriving Repr, DecidableEq

/-- Gregorian leap-year test. -/
def isLeapYear (y : Nat) : Bool :=
  (y % 4 = 0 && y % 100 != 0) || y % 400 = 0

/-- Day counts of the twelve months in a non-leap year. -/
def monthDays : List Nat := [31, 28, 31, 30, 31, 30, 31, 31, 30, 31, 30, 31]

/-- Days in the given year that precede the first day of the given month. -/
def daysBeforeMonth (y m : Nat) : Nat :=
  (monthDays.take (m - 1)).foldl (· + ·) 0 + (if 2 < m && isLeapYear y then 1 else 0)

/-- Days that precede January 1 of the given year, counting from year 1
(CPython date._ymd2ord without the day term). -/
def daysBeforeYear (y : Nat) : Nat :=
  365 * (y - 1) + (y - 1) / 4 + (y - 1) / 400 - (y - 1) / 100

/-- Proleptic-Gregorian ordinal of a date, with January 1 of year 1 as
ordinal 1 (CPython date.toordinal). -/
def toOrdinal (d : Date) : Nat :=
  daysBeforeYear d.year + daysBeforeMonth d.year d.month + d.day

/-- Ordinal of the Monday starting ISO week 1 of the given year (CPython
datetime._isoweek1monday). -/
def isoweek1monday (year : Nat) : Int :=
  let firstday : Int := toOrdinal ⟨year, 1, 1⟩
  let firstweekday : Int := (firstday + 6) % 7
  let week1monday : Int := firstday - firstweekday
  if 3 < firstweekday then week1monday + 7 else week1monday

/-- ISO calendar year and week of a date (CPython date.isocalendar, without the
weekday component), used at line 227 of bug_release.py. -/
def isocalendarYW (d : Date) : Nat × Nat :=
  let today : Int := toOrdinal d
  let week : Int := Int.fdiv (today - isoweek1monday d.year) 7
  if week < 0 then
    (d.year - 1, (Int.fdiv (today - isoweek1monday (d.year - 1)) 7 + 1).toNat)
  else if 52 ≤ week then
    if isoweek1monday (d.year + 1) ≤ today then (d.year + 1, 1)
    else (d.year, (week + 1).toNat)
  else (d.year, (week + 1).toNat)

/-- WFMT from bug_release.py (line 65): the year-week key with the week number
zero-padded to two digits. -/
def wfmt (y w : Nat) : String :=
  toString y ++ "-" ++ (if w < 10 then "0" ++ toString w else toString w)

/-- Week key of a creation date: WFMT applied to the ISO year and week
(lines 226-228 of bug_release.py). -/
def weekKey (d : Date) : String :=
  wfmt (isocalendarYW d).1 (isocalendarYW d).2

/-- One field change inside a history entry: field name, old value, new value
(the removed and added members of a Bugzilla history change). -/
structure Change where
  field_name : String
  removed : String
  added : String
deriving Repr, DecidableEq

/-- One history entry of a bug: the change timestamp and the list of field
changes made at that time. -/
structure HistoryItem where
  when : Int
  changes : List Change
deriving Repr, DecidableEq

/-- A raw bug record as consumed by bug_handler: the fields requested by the
query (lines 248-259 of bug_release.py), with creation_time already parsed to
a date and the assignee flattened to the email. -/
structure BugData where
  id : Nat
  summary : String
  product : String
  component : String
  creation_time : Date
  severity : String
  assigned_to_email : String
  status_flag_version : String
  status_flag_successor_version : String
  history : List HistoryItem
deriving Repr, DecidableEq

/-- Mutable locals of the history walk in bug_handler (lines 104-118 of
bug_release.py): the pre-release flag and the four optional severity indices,
each starting as None. -/
structure RecState where
  pre_release_phase : Bool
  severity_highest_index_before_release : Option Nat
  severity_index_at_release : Option Nat
  severity_highest_index_after_release : Option Nat
  severity_index_last_processed : Option Nat
deriving Repr, DecidableEq

/-- Initial walk state (lines 104, 111-113, 118): pre-release, all severity
indices None. -/
def initRecState : RecState := ⟨true, none, none, none, none⟩

/-- Processing of one history change (lines 123-159 of bug_release.py) at item
timestamp w, given release and successor-release timestamps rel and succ. The
returned Bool is true when the change executed the break statement at line 139,
which leaves the remaining changes of the same history item unprocessed. -/
def processChange (rel succ w : Int) (st : RecState) (c : Change) :
    Except String (RecState × Bool) :=
  if c.field_name = "severity" then
    match pyIndex c.removed SEVERITIES_LIST with
    | .error e => .error e
    | .ok severity_index_old =>
      match pyIndex c.added SEVERITIES_LIST with
      | .error e => .error e
      | .ok severity_index_new =>
        -- lines 134-139: ignore changes made after the subsequent major release
        if succ < w then
          .ok (if st.severity_index_last_processed = none then
                 { st with severity_index_last_processed := some severity_index_old }
               else st, true)
        else
          -- lines 141-146: has the release shipped?
          let step1 : Except String RecState :=
            if st.pre_release_phase && decide (rel < w) then
              match pyMaxOptNat st.severity_highest_index_before_release severity_index_old with
              | .error e => .error e
              | .ok b =>
                .ok { st with
                        pre_release_phase := false,
                        severity_index_at_release := some severity_index_old,
                        severity_highest_index_before_release := some b,
                        severity_highest_index_after_release := some severity_index_new }
            else .ok st
          match step1 with
          | .error e => .error e
          | .ok st1 =>
            if st1.pre_release_phase then
              -- lines 148-153: before release
              let b0 := st1.severity_highest_index_before_release.getD severity_index_old
              .ok ({ st1 with severity_highest_index_before_release := some (max b0 severity_index_new) },
                   false)
            else
              -- lines 154-159: after release
              match st1.severity_highest_index_after_release with
              | none =>
                .ok ({ st1 with severity_highest_index_after_release := some severity_index_new },
                     false)
              | some a =>
                .ok ({ st1 with severity_highest_index_after_release := some (max a severity_index_new) },
                     false)
  else .ok (st, false)

/-- The inner loop over the changes of one history item (line 123), honoring
the break at line 139. -/
def processChanges (rel succ w : Int) (st : RecState) : List Change → Except String RecState
  | [] => .ok st
  | c :: cs =>
    match processChange rel succ w st c with
    | .error e => .error e
    | .ok (st1, true) => .ok st1
    | .ok (st1, false) => processChanges rel succ w st1 cs

/-- The outer loop over the history items (line 122); the break at line 139
only leaves the inner loop, so iteration over later items always continues. -/
def processHistory (rel succ : Int) (st : RecState) : List HistoryItem → Except String RecState
  | [] => .ok st
  | item :: rest =>
    match processChanges rel succ item.when st item.changes with
    | .error e => .error e
    | .ok st1 => processHistory rel succ st1 rest

/-- The fallback fixups after the walk (lines 160-168 of bug_release.py),
producing the final triple of optional severity indices (before release, at
release, after release) from the walk state and the current-severity index. -/
def finalize (severity_current_index : Nat) (st : RecState) :
    Option Nat × Option Nat × Option Nat :=
  let last := st.severity_index_last_processed.getD severity_current_index
  if st.pre_release_phase then
    let before := st.severity_highest_index_before_release.getD last
    match st.severity_index_at_release with
    | none => (some before, some last, some last)
    | some a => (some before, some a, st.severity_highest_index_after_release)
  else
    (st.severity_highest_index_before_release,
     st.severity_index_at_release,
     st.severity_highest_index_after_release)

/-- The severity reconstruction of bug_handler (lines 111-171 of
bug_release.py): walk the history and return the severity names in effect
before release, at release and after release. -/
def derivedSeverities (bug : BugData) (rel succ : Int) :
    Except String (String × String × String) :=
  match pyIndex bug.severity SEVERITIES_LIST with
  | .error e => .error e
  | .ok severity_current_index =>
    match processHistory rel succ initRecState bug.history with
    | .error e => .error e
    | .ok st =>
      let (b, a, f) := finalize severity_current_index st
      match pyListGetOpt SEVERITIES_LIST b with
      | .error e => .error e
      | .ok sev_before_release =>
        match pyListGetOpt SEVERITIES_LIST a with
        | .error e => .error e
        | .ok sev_at_release =>
          match pyListGetOpt SEVERITIES_LIST f with
          | .error e => .error e
          | .ok sev_after_release => .ok (sev_before_release, sev_at_release, sev_after_release)

/-- Severity-group index of a severity name (lines 172-174 of bug_release.py):
look the name up in the SEVERITIES dict, then take the group's position in
SEVERITIES_GROUP_LIST. -/
def severityGroupIndex (sev : String) : Except String Nat :=
  match pyDictGet SEVERITIES sev with
  | .error e => .error e
  | .ok g => pyIndex g SEVERITIES_GROUP_LIST

/-- Severity classification of one bug (lines 111-174 of bug_release.py): the
group indices of the before-release, at-release and after-release severities. -/
def classifyBug (bug : BugData) (rel succ : Int) : Except String (Nat × Nat × Nat) :=
  match derivedSeverities bug rel succ with
  | .error e => .error e
  | .ok (sb, sa, sf) =>
    match severityGroupIndex sb with
    | .error e => .error e
    | .ok sev_group_before_release =>
      match severityGroupIndex sa with
      | .error e => .error e
      | .ok sev_group_at_release =>
        match severityGroupIndex sf with
        | .error e => .error e
        | .ok sev_group_after_release =>
          .ok (sev_group_before_release, sev_group_at_release, sev_group_after_release)

/-- The row appended to a flagged-bug list (lines 192-200 and 209-217 of
bug_release.py), with the numeric bug id rendered like the remaining cells. -/
def flagRow (bug : BugData) : List String :=
  [toString bug.id, bug.product, bug.status_flag_version,
   bug.status_flag_successor_version, bug.component, bug.assigned_to_email,
   bug.summary]

/-- The shared mutable aggregation state of get_bugs (lines 232-236 of
bug_release.py): the weekly table of opened-bug counts and the two flagged-bug
lists. -/
structure AggState where
  data_opened : List (String × List (String × Nat))
  sev_lowered_and_increased : List (List String)
  sev_increased_after_release : List (List String)
deriving Repr, DecidableEq

/-- The table update data_opened[group][week] += 1 of line 230: both
subscriptions can raise KeyError; on success the looked-up count is replaced by
its successor. -/
def dictIncr (d : List (String × List (String × Nat))) (g t : String) :
    Except String (List (String × List (String × Nat))) :=
  match pyDictGet d g with
  | .error e => .error e
  | .ok inner =>
    match pyDictGet inner t with
    | .error e => .error e
    | .ok v => .ok (pyDictSet d g (pyDictSet inner t (v + 1)))

/-- Reading one cell of the nested weekly table. -/
def dictGet2 (d : List (String × List (String × Nat))) (g t : String) : Except String Nat :=
  match pyDictGet d g with
  | .error e => .error e
  | .ok inner => pyDictGet inner t

/-- bug_handler (lines 97-230 of bug_release.py) for one bug record: classify
the bug, append it to the flagged lists its groups qualify it for, and count it
in the weekly table under the higher of the before-release and after-release
groups, keyed by the ISO year-week of its creation time. -/
def bugHandler (rel succ : Int) (bug : BugData) (st : AggState) : Except String AggState :=
  match classifyBug bug rel succ with
  | .error e => .error e
  | .ok (sev_group_before_release, sev_group_at_release, sev_group_after_release) =>
    -- lines 184-200
    let st1 :=
      if sev_group_at_release < sev_group_before_release &&
         sev_group_at_release < sev_group_after_release then
        { st with sev_lowered_and_increased := st.sev_lowered_and_increased ++ [flagRow bug] }
      else st
    -- lines 201-217
    let st2 :=
      if sev_group_at_release < sev_group_after_release then
        { st1 with sev_increased_after_release := st1.sev_increased_after_release ++ [flagRow bug] }
      else st1
    -- lines 226-230
    match pyListGet SEVERITIES_GROUP_LIST (max sev_group_before_release sev_group_after_release) with
    | .error e => .error e
    | .ok sev_group_highest =>
      match dictIncr st2.data_opened sev_group_highest (weekKey bug.creation_time) with
      | .error e => .error e
      | .ok tbl => .ok { st2 with data_opened := tbl }

/-- Sequential processing of a list of bug records through bug_handler into the
shared aggregation state, as one Bugzilla query's callback stream does. -/
def processBugs (rel succ : Int) (st : AggState) : List BugData → Except String AggState
  | [] => .ok st
  | b :: bs =>
    match bugHandler rel succ b st with
    | .error e => .error e
    | .ok st1 => processBugs rel succ st1 bs

/-- Feeding several fetch batches one after another into the same shared
aggregation state (the per-sub-window queries of lines 312-341 of
bug_release.py, completed in order). -/
def feedBatches (rel succ : Int) (st : AggState) : List (List BugData) → Except String AggState
  | [] => .ok st
  | batch :: rest =>
    match processBugs rel succ st batch with
    | .error e => .error e
    | .ok st1 => feedBatches rel succ st1 rest

/-- History truncated at the successor-release cutoff: only the entries
timestamped at or before the cutoff remain. -/
def truncHistory (succ : Int) (h : List HistoryItem) : List HistoryItem :=
  h.filter (fun item => decide (item.when ≤ succ))

/-- Old value of the first severity change in a change list, if any. -/
def firstSevOld : List Change → Option String
  | [] => none
  | c :: cs => if c.field_name = "severity" then some c.removed else firstSevOld cs

/-- Old value of the first severity change timestamped strictly after the
successor-release cutoff, in the handler's iteration order: the fallback
effective creation severity of lines 134-139 of bug_release.py. -/
def firstOOWold (succ : Int) : List HistoryItem → Option String
  | [] => none
  | item :: rest =>
    if succ < item.when then
      match firstSevOld item.changes with
      | some s => some s
      | none => firstOOWold succ rest
    else firstOOWold succ rest

/-- The bug with its history truncated at the successor-release cutoff and its
current severity replaced by the fallback effective creation severity (the old
value of the first out-of-window change) when one exists. -/
def truncatedBug (succ : Int) (bug : BugData) : BugData :=
  { bug with
      history := truncHistory succ bug.history,
      severity := (firstOOWold succ bug.history).getD bug.severity }

/-- The walk state without its last-processed component: the part of the state
the in-window processing both reads and writes. -/
def RecState.core (s : RecState) : Bool × Option Nat × Option Nat × Option Nat :=
  (s.pre_release_phase,
   s.severity_highest_index_before_release,
   s.severity_index_at_release,
   s.severity_highest_index_after_release)

/-- Replacing the last-processed component of a walk state. -/
def setLast (s : RecState) (l : Option Nat) : RecState :=
  { s with severity_index_last_processed := l }

/-- The bug records stored in a Bugzilla data file under the node 'opened',
by phase: add_bugzilla_data_to_save (lines 74-83, 101-102 of bug_release.py)
appends every handled record under the node path consisting of 'opened' and the
phase name, and the two phases are 'nightly' and 'beta' (lines 298-311). -/
structure OpenedCache where
  nightly : List BugData
  beta : List BugData
deriving Repr, DecidableEq

/-- All records persisted in a saved Bugzilla data file: both phases. -/
def cacheSavedRecords (c : OpenedCache) : List BugData :=
  c.nightly ++ c.beta

/-- The records replayed in cache-load mode (lines 242-244 of bug_release.py):
the loop iterates only the data under 'opened' and 'nightly'. -/
def cacheReplayRecords (c : OpenedCache) : List BugData :=
  c.nightly

/-- The bzdata-save path resolution (lines 453-461 of bug_release.py). The
argument mirrors argparse with nargs at most one and a suppressed default:
none when the flag is absent, otherwise the optional explicit path; an empty
string is falsy in Python and therefore also selects the default location. -/
def bzdataSavePath (bzdata_save : Option (Option String)) (product_version : Nat) : Option String :=
  match bzdata_save with
  | none => none
  | some (some p) =>
    if p = "" then some ("data/bugzilla_data_" ++ toString product_version ++ ".json")
    else some p
  | some none => some ("data/bugzilla_data_" ++ toString product_version ++ ".json")

/-- The path the save branch actually opens for writing (line 467 of
bug_release.py): the version-derived default location, spelled out inline. -/
def saveWriteTarget (product_version : Nat) : String :=
  "data/bugzilla_data_" ++ toString product_version ++ ".json"

/-- Concrete record for the end-to-end scenario of claim C4: created with
severity normal, lowered to minor at day 10, raised to critical at day 40. -/
def bugScenario : BugData :=
  ⟨1, "scenario bug", "Core", "General", ⟨2019, 1, 15⟩, "critical", "dev@example.org",
   "affected", "fixed",
   [⟨10, [⟨"severity", "normal", "minor"⟩]⟩, ⟨40, [⟨"severity", "minor", "critical"⟩]⟩]⟩

/-- Concrete record whose first and only severity change happens after the
release but before the successor cutoff. -/
def bugPostReleaseChange : BugData :=
  ⟨2, "post-release change", "Core", "General", ⟨2019, 1, 15⟩, "critical", "dev@example.org",
   "affected", "fixed", [⟨40, [⟨"severity", "minor", "critical"⟩]⟩]⟩

/-- Concrete record whose severity changes all happen after the successor
cutoff. -/
def bugAllLate : BugData :=
  ⟨3, "late changes", "Core", "General", ⟨2019, 1, 15⟩, "blocker", "dev@example.org",
   "affected", "fixed",
   [⟨200, [⟨"severity", "minor", "critical"⟩]⟩, ⟨300, [⟨"severity", "critical", "blocker"⟩]⟩]⟩

/-- Concrete record with history entries but no severity change. -/
def bugNoSevChange : BugData :=
  ⟨4, "no severity change", "Core", "General", ⟨2019, 1, 15⟩, "major", "dev@example.org",
   "affected", "fixed", [⟨10, [⟨"priority", "P3", "P1"⟩]⟩]⟩

/-- Concrete record with an empty history, severity normal. -/
def bugPlain : BugData :=
  ⟨5, "plain bug", "Core", "General", ⟨2019, 1, 15⟩, "normal", "dev@example.org",
   "affected", "fixed", []⟩

/-- A second plain record, distinct id. -/
def bugPlain2 : BugData :=
  ⟨6, "second plain bug", "Core", "General", ⟨2019, 1, 15⟩, "normal", "dev@example.org",
   "affected", "fixed", []⟩

/-- Concrete record with one in-window and one out-of-window severity
change. -/
def bugMixed : BugData :=
  ⟨7, "mixed changes", "Core", "General", ⟨2019, 1, 15⟩, "critical", "dev@example.org",
   "affected", "fixed",
   [⟨10, [⟨"severity", "normal", "minor"⟩]⟩, ⟨200, [⟨"severity", "minor", "critical"⟩]⟩]⟩

/-- An aggregation state holding one zeroed cell for the normal group in the
creation week of the concrete records. -/
def aggNormal : AggState :=
  ⟨[("normal", [("2019-03", 0)])], [], []⟩
theorem mem_pyIndex {x : String} {l : List String} (hx : x ∈ l) :
    ∃ i, pyIndex x l = .ok i ∧ pyListGet l i = .ok x := by
  induction l with
  | nil => cases hx
  | cons y l ih =>
    by_cases h : y = x
    · exact ⟨0, by simp [pyIndex, h], by simp [pyListGet, h]⟩
    · have hx2 : x ∈ l := by
        cases hx with
        | head => exact absurd rfl h
        | tail _ hm => exact hm
      obtain ⟨i, h1, h2⟩ := ih hx2
      refine ⟨i + 1, ?_, ?_⟩
      · simp [pyIndex, h, h1, Except.map]
      · simpa [pyListGet] using h2

theorem processChanges_no_sev (rel succ w : Int) (st : RecState) (cs : List Change)
    (hno : ∀ c ∈ cs, c.field_name ≠ "severity") :
    processChanges rel succ w st cs = .ok st := by
  induction cs with
  | nil => rfl
  | cons c cs ih =>
    have hc : c.field_name ≠ "severity" := hno c (List.mem_cons_self c cs)
    simp [processChanges, processChange, hc]
    exact ih (fun d hd => hno d (List.mem_cons_of_mem c hd))

theorem processHistory_no_sev (rel succ : Int) (st : RecState) (h : List HistoryItem)
    (hno : ∀ item ∈ h, ∀ c ∈ item.changes, c.field_name ≠ "severity") :
    processHistory rel succ st h = .ok st := by
  induction h with
  | nil => rfl
  | cons item rest ih =>
    have h1 := processChanges_no_sev rel succ item.when st item.changes
      (hno item (List.mem_cons_self item rest))
    simp [processHistory, h1]
    exact ih (fun it hit => hno it (List.mem_cons_of_mem item hit))
theorem firstSevOld_mem {cs : List Change} {s : String} (h : firstSevOld cs = some s) :
    ∃ c ∈ cs, c.field_name = "severity" ∧ c.removed = s := by
  induction cs with
  | nil => cases h
  | cons c cs ih =>
    by_cases hc : c.field_name = "severity"
    · refine ⟨c, List.mem_cons_self c cs, hc, ?_⟩
      simpa [firstSevOld, hc] using h
    · have h2 : firstSevOld cs = some s := by simpa [firstSevOld, hc] using h
      obtain ⟨d, hd, h3, h4⟩ := ih h2
      exact ⟨d, List.mem_cons_of_mem c hd, h3, h4⟩

theorem firstSevOld_none {cs : List Change} (h : firstSevOld cs = none) :
    ∀ c ∈ cs, c.field_name ≠ "severity" := by
  induction cs with
  | nil => intro c hc; cases hc
  | cons c cs ih =>
    by_cases hc : c.field_name = "severity"
    · simp [firstSevOld, hc] at h
    · intro d hd
      cases hd with
      | head => exact hc
      | tail _ hm =>
        have h2 : firstSevOld cs = none := by simpa [firstSevOld, hc] using h
        exact ih h2 d hm

theorem firstOOWold_mem {succ : Int} {h : List HistoryItem} {s : String}
    (hf : firstOOWold succ h = some s) :
    ∃ item ∈ h, succ < item.when ∧ ∃ c ∈ item.changes, c.field_name = "severity" ∧ c.removed = s := by
  induction h with
  | nil => cases hf
  | cons item rest ih =>
    by_cases hw : succ < item.when
    · cases hcs : firstSevOld item.changes with
      | some s0 =>
        have hs : s0 = s := by simpa [firstOOWold, hw, hcs] using hf
        obtain ⟨c, hc, h1, h2⟩ := firstSevOld_mem hcs
        exact ⟨item, List.mem_cons_self item rest, hw, c, hc, h1, hs ▸ h2⟩
      | none =>
        have hf2 : firstOOWold succ rest = some s := by simpa [firstOOWold, hw, hcs] using hf
        obtain ⟨it, hit, h1, h2⟩ := ih hf2
        exact ⟨it, List.mem_cons_of_mem item hit, h1, h2⟩
    · have hf2 : firstOOWold succ rest = some s := by simpa [firstOOWold, hw] using hf
      obtain ⟨it, hit, h1, h2⟩ := ih hf2
      exact ⟨it, List.mem_cons_of_mem item hit, h1, h2⟩

theorem processChanges_oow (rel succ w : Int) (hw : succ < w) (st : RecState) (cs : List Change)
    (hwf : ∀ c ∈ cs, c.field_name = "severity" →
      c.removed ∈ SEVERITIES_LIST ∧ c.added ∈ SEVERITIES_LIST) :
    processChanges rel succ w st cs = .ok (
      match firstSevOld cs with
      | none => st
      | some s =>
        if st.severity_index_last_processed = none
        then setLast st ((pyIndex s SEVERITIES_LIST).toOption) else st) := by
  induction cs with
  | nil => rfl
  | cons c cs ih =>
    by_cases hc : c.field_name = "severity"
    · obtain ⟨hr, ha⟩ := hwf c (List.mem_cons_self c cs) hc
      obtain ⟨iOld, hO, _⟩ := mem_pyIndex hr
      obtain ⟨iNew, hN, _⟩ := mem_pyIndex ha
      simp only [processChanges, processChange, hc, if_true, hO, hN, if_pos hw, firstSevOld]
      by_cases hl : st.severity_index_last_processed = none
      · simp [hl, hO, setLast, Except.toOption]
      · simp [hl]
    · have h1 : processChange rel succ w st c = .ok (st, false) := by
        simp [processChange, hc]
      simp only [processChanges, h1, firstSevOld, hc, if_false]
      exact ih (fun d hd => hwf d (List.mem_cons_of_mem c hd))
theorem processHistory_late (rel succ : Int) (h : List HistoryItem) (st : RecState)
    (hall : ∀ item ∈ h, ∀ c ∈ item.changes, c.field_name = "severity" → succ < item.when)
    (hwf : ∀ item ∈ h, ∀ c ∈ item.changes, c.field_name = "severity" →
      c.removed ∈ SEVERITIES_LIST ∧ c.added ∈ SEVERITIES_LIST) :
    processHistory rel succ st h = .ok (
      match firstOOWold succ h with
      | none => st
      | some s =>
        if st.severity_index_last_processed = none
        then setLast st ((pyIndex s SEVERITIES_LIST).toOption) else st) := by
  induction h generalizing st with
  | nil => rfl
  | cons item rest ih =>
    have hallr : ∀ it ∈ rest, ∀ c ∈ it.changes, c.field_name = "severity" → succ < it.when :=
      fun it hit => hall it (List.mem_cons_of_mem item hit)
    have hwfr : ∀ it ∈ rest, ∀ c ∈ it.changes, c.field_name = "severity" →
        c.removed ∈ SEVERITIES_LIST ∧ c.added ∈ SEVERITIES_LIST :=
      fun it hit => hwf it (List.mem_cons_of_mem item hit)
    cases hcs : firstSevOld item.changes with
    | none =>
      have hnone := firstSevOld_none hcs
      have h1 := processChanges_no_sev rel succ item.when st item.changes hnone
      have hoow : firstOOWold succ (item :: rest) = firstOOWold succ rest := by
        by_cases hw : succ < item.when
        · simp [firstOOWold, hw, hcs]
        · simp [firstOOWold, hw]
      rw [processHistory, h1, hoow]
      exact ih st hallr hwfr
    | some s0 =>
      obtain ⟨c0, hc0, hf0, he0⟩ := firstSevOld_mem hcs
      have hw : succ < item.when := hall item (List.mem_cons_self item rest) c0 hc0 hf0
      have h1 := processChanges_oow rel succ item.when hw st item.changes
        (hwf item (List.mem_cons_self item rest))
      rw [processHistory, h1, hcs]
      obtain ⟨hr, _⟩ := hwf item (List.mem_cons_self item rest) c0 hc0 hf0
      obtain ⟨i0, hO, _⟩ := mem_pyIndex (he0 ▸ hr : s0 ∈ SEVERITIES_LIST)
      have hoow : firstOOWold succ (item :: rest) = some s0 := by
        simp [firstOOWold, hw, hcs]
      by_cases hl : st.severity_index_last_processed = none
      · simp only [hl, if_true]
        have hlast : (setLast st ((pyIndex s0 SEVERITIES_LIST).toOption)).severity_index_last_processed
            = some i0 := by
          simp [setLast, hO, Except.toOption]
        rw [ih _ hallr hwfr, hoow]
        simp only [hlast]
        cases firstOOWold succ rest <;> simp
      · simp only [hl, if_false]
        rw [ih st hallr hwfr, hoow]
        simp only [hl, if_false]
        cases firstOOWold succ rest <;> simp
/-- C1: for a bug whose history contains an in-window severity change and whose
first such change is timestamped strictly after the release, the claim says the
reconstruction succeeds with severity_before equal to the change's old value;
the code instead evaluates max(None, severity_index_old) at line 145, which
raises TypeError under Python 3. This theorem evaluates the embedded
reconstruction at such a record (release 30, successor 100, single severity
change minor to critical at time 40). -/
theorem postrelease_first_change_raises_typeerror :
    derivedSeverities bugPostReleaseChange 30 100 =
      .error "TypeError: max of NoneType and int" := by decide

/-- C4: end-to-end scenario; bug created with severity normal, lowered to minor
at day 10 (release day 30), raised to critical at day 40 (before the successor
cutoff 100): severity_before is normal, severity_at_release minor,
severity_after critical (group indices 2, 1, 3), and the handler appends the
bug to both the lowered-then-raised and the raised-after-release lists. -/
theorem end_to_end_scenario_normal_minor_critical :
    derivedSeverities bugScenario 30 100 = .ok ("normal", "minor", "critical") ∧
    classifyBug bugScenario 30 100 = .ok (2, 1, 3) ∧
    bugHandler 30 100 bugScenario ⟨[("blocker+critical+major", [("2019-03", 0)])], [], []⟩ =
      .ok ⟨[("blocker+critical+major", [("2019-03", 1)])],
           [flagRow bugScenario], [flagRow bugScenario]⟩ := by
  refine ⟨by decide, by decide, by decide⟩

/-- C5: a severity change timestamped exactly at the release instant is
processed as pre-release; it feeds its new value into the running maximum for
severity_before (seeded with its old value when the maximum is still unset),
does not flip the pre-release flag and does not take the at-release snapshot:
crossing into post-release needs a timestamp strictly greater than the release
timestamp. -/
theorem boundary_change_processed_pre_release (rel succ : Int) (st : RecState) (c : Change)
    (hrs : rel ≤ succ) (hf : c.field_name = "severity")
    (hpre : st.pre_release_phase = true) (iOld iNew : Nat)
    (hO : pyIndex c.removed SEVERITIES_LIST = .ok iOld)
    (hN : pyIndex c.added SEVERITIES_LIST = .ok iNew) :
    processChange rel succ rel st c =
      .ok
        ({ st with
             severity_highest_index_before_release :=
               some (max (st.severity_highest_index_before_release.getD iOld) iNew) },
         false) := by
  simp only [processChange, hf, if_true, hO, hN]
  rw [if_neg (not_lt.mpr hrs)]
  simp [hpre, lt_irrefl]

theorem boundary_change_processed_pre_release_witness :
    (30 : Int) ≤ 100 ∧
    (⟨"severity", "normal", "minor"⟩ : Change).field_name = "severity" ∧
    initRecState.pre_release_phase = true ∧
    pyIndex "normal" SEVERITIES_LIST = .ok 3 ∧
    pyIndex "minor" SEVERITIES_LIST = .ok 2 ∧
    processChange 30 100 30 initRecState ⟨"severity", "normal", "minor"⟩ =
      .ok
        ({ initRecState with
             severity_highest_index_before_release :=
               some (max ((initRecState.severity_highest_index_before_release).getD 3) 2) },
         false) :=
  ⟨by decide, rfl, rfl, by decide, by decide,
   boundary_change_processed_pre_release 30 100 initRecState ⟨"severity", "normal", "minor"⟩
     (by decide) rfl rfl 3 2 (by decide) (by decide)⟩

/-- C7: a bug whose history contains no severity change at all gets all three
derived severities equal to its current severity field. -/
theorem no_severity_change_uses_current (bug : BugData) (rel succ : Int)
    (hno : ∀ item ∈ bug.history, ∀ c ∈ item.changes, c.field_name ≠ "severity")
    (hsev : bug.severity ∈ SEVERITIES_LIST) :
    derivedSeverities bug rel succ = .ok (bug.severity, bug.severity, bug.severity) := by
  obtain ⟨k, hk, hget⟩ := mem_pyIndex hsev
  have hproc := processHistory_no_sev rel succ initRecState bug.history hno
  simp only [derivedSeverities, hk, hproc]
  simp [finalize, initRecState, pyListGetOpt, hget]

theorem no_severity_change_uses_current_witness :
    (∀ item ∈ bugNoSevChange.history, ∀ c ∈ item.changes, c.field_name ≠ "severity") ∧
    bugNoSevChange.severity ∈ SEVERITIES_LIST ∧
    derivedSeverities bugNoSevChange 30 100 = .ok ("major", "major", "major") :=
  ⟨by decide, by decide,
   no_severity_change_uses_current bugNoSevChange 30 100 (by decide) (by decide)⟩

/-- C6: a bug whose severity changes all happen strictly after the
successor-release cutoff gets all three derived severities equal to the old
value of the first out-of-window change, the effective creation severity. -/
theorem all_changes_after_cutoff_use_first_old (bug : BugData) (rel succ : Int) (s0 : String)
    (hfirst : firstOOWold succ bug.history = some s0)
    (hall : ∀ item ∈ bug.history, ∀ c ∈ item.changes, c.field_name = "severity" →
      succ < item.when)
    (hwf : ∀ item ∈ bug.history, ∀ c ∈ item.changes, c.field_name = "severity" →
      c.removed ∈ SEVERITIES_LIST ∧ c.added ∈ SEVERITIES_LIST)
    (hsev : bug.severity ∈ SEVERITIES_LIST) :
    derivedSeverities bug rel succ = .ok (s0, s0, s0) := by
  obtain ⟨k, hk, _⟩ := mem_pyIndex hsev
  obtain ⟨item, hitem, hw, c, hc, hcf, hcr⟩ := firstOOWold_mem hfirst
  have hs0 : s0 ∈ SEVERITIES_LIST := hcr ▸ (hwf item hitem c hc hcf).1
  obtain ⟨i0, hO, hget⟩ := mem_pyIndex hs0
  have hproc := processHistory_late rel succ bug.history initRecState hall hwf
  rw [hfirst] at hproc
  simp only [initRecState, setLast, hO, Except.toOption] at hproc
  simp only [derivedSeverities, hk, initRecState, hproc]
  simp [finalize, pyListGetOpt, hget]

theorem all_changes_after_cutoff_use_first_old_witness :
    firstOOWold 100 bugAllLate.history = some "minor" ∧
    (∀ item ∈ bugAllLate.history, ∀ c ∈ item.changes, c.field_name = "severity" →
      (100 : Int) < item.when) ∧
    (∀ item ∈ bugAllLate.history, ∀ c ∈ item.changes, c.field_name = "severity" →
      c.removed ∈ SEVERITIES_LIST ∧ c.added ∈ SEVERITIES_LIST) ∧
    bugAllLate.severity ∈ SEVERITIES_LIST ∧
    derivedSeverities bugAllLate 30 100 = .ok ("minor", "minor", "minor") :=
  ⟨by decide, by decide, by decide, by decide,
   all_changes_after_cutoff_use_first_old bugAllLate 30 100 "minor"
     (by decide) (by decide) (by decide) (by decide)⟩

/-- C9: the claim says cache-load mode replays every record stored under every
phase name; the load loop of lines 242-244 iterates only the data stored under
the nightly phase, so a record saved under the beta phase is never replayed. -/
theorem cache_load_replays_only_nightly :
    cacheReplayRecords ⟨[], [bugPlain]⟩ = [] ∧
    cacheSavedRecords ⟨[], [bugPlain]⟩ = [bugPlain] := by
  refine ⟨rfl, rfl⟩

/-- C10: the claim says an explicit bzdata-save path is the path written to;
the resolution of lines 453-461 does honour the explicit path, but line 467
opens the version-derived default location regardless, so the written path
differs from the resolved one. -/
theorem save_writes_default_path_despite_explicit :
    bzdataSavePath (some (some "/tmp/bugzilla_cache.json")) 71 =
      some "/tmp/bugzilla_cache.json" ∧
    saveWriteTarget 71 = "data/bugzilla_data_71.json" ∧
    saveWriteTarget 71 ≠ "/tmp/bugzilla_cache.json" := by
  refine ⟨by decide, by decide, by decide⟩
theorem pyDictGet_set_self {β : Type} (d : List (String × β)) (k : String) (v : β) :
    pyDictGet (pyDictSet d k v) k = .ok v := by
  induction d with
  | nil => simp [pyDictSet, pyDictGet]
  | cons p rest ih =>
    obtain ⟨k1, v1⟩ := p
    by_cases h : k1 = k
    · simp [pyDictSet, pyDictGet, h]
    · simp [pyDictSet, pyDictGet, h, ih]

theorem pyDictGet_set_other {β : Type} (d : List (String × β)) (k k2 : String) (v : β)
    (h : k ≠ k2) : pyDictGet (pyDictSet d k v) k2 = pyDictGet d k2 := by
  induction d with
  | nil => simp [pyDictSet, pyDictGet, h]
  | cons p rest ih =>
    obtain ⟨k1, v1⟩ := p
    by_cases h1 : k1 = k
    · simp [pyDictSet, pyDictGet, h1, h, Ne.symm h]
    · by_cases h2 : k1 = k2
      · simp [pyDictSet, pyDictGet, h1, h2, Ne.symm h]
      · simp [pyDictSet, pyDictGet, h1, h2, ih]

theorem pyDictSet_set_self {β : Type} (d : List (String × β)) (k : String) (v w : β) :
    pyDictSet (pyDictSet d k v) k w = pyDictSet d k w := by
  induction d with
  | nil => simp [pyDictSet]
  | cons p rest ih =>
    obtain ⟨k1, v1⟩ := p
    by_cases h : k1 = k
    · simp [pyDictSet, h]
    · simp [pyDictSet, h, ih]

theorem pyDictSet_comm {β : Type} (d : List (String × β)) (k k2 : String) (v w u u2 : β)
    (h : k ≠ k2) (hk : pyDictGet d k = .ok u) (hk2 : pyDictGet d k2 = .ok u2) :
    pyDictSet (pyDictSet d k v) k2 w = pyDictSet (pyDictSet d k2 w) k v := by
  induction d with
  | nil => cases hk
  | cons p rest ih =>
    obtain ⟨k1, v1⟩ := p
    by_cases h1 : k1 = k
    · have h2 : k1 ≠ k2 := h1 ▸ h
      simp [pyDictSet, h1, h2, h, Ne.symm h]
    · by_cases h2 : k1 = k2
      · simp [pyDictSet, h1, h2, h, Ne.symm h]
      · have hkr : pyDictGet rest k = .ok u := by
          simpa [pyDictGet, h1] using hk
        have hk2r : pyDictGet rest k2 = .ok u2 := by
          simpa [pyDictGet, h2] using hk2
        simp [pyDictSet, h1, h2, ih hkr hk2r]

theorem dictIncr_cell {d r : List (String × List (String × Nat))} {g t : String}
    (h : dictIncr d g t = .ok r) :
    ∃ v, dictGet2 d g t = .ok v ∧ dictGet2 r g t = .ok (v + 1) := by
  unfold dictIncr at h
  split at h
  · simp at h
  · rename_i inner h1
    split at h
    · simp at h
    · rename_i v h2
      injection h with h3
      subst h3
      refine ⟨v, by simp [dictGet2, h1, h2], ?_⟩
      simp [dictGet2, pyDictGet_set_self]

theorem dictIncr_other {d r : List (String × List (String × Nat))} {g t : String}
    (h : dictIncr d g t = .ok r) (g2 t2 : String)
    (hne : ¬(g2 = g ∧ t2 = t)) :
    dictGet2 r g2 t2 = dictGet2 d g2 t2 := by
  unfold dictIncr at h
  split at h
  · simp at h
  · rename_i inner h1
    split at h
    · simp at h
    · rename_i v h2
      injection h with h3
      subst h3
      by_cases hg : g2 = g
      · subst hg
        have ht : t2 ≠ t := fun ht => hne ⟨rfl, ht⟩
        simp [dictGet2, pyDictGet_set_self, h1,
              pyDictGet_set_other _ t t2 _ (Ne.symm ht)]
      · simp [dictGet2, pyDictGet_set_other _ g g2 _ (Ne.symm hg)]

theorem bugHandler_spec (rel succ : Int) (bug : BugData) (st : AggState)
    (gB gAt gAf : Nat) (grp : String)
    (hc : classifyBug bug rel succ = .ok (gB, gAt, gAf))
    (hg : pyListGet SEVERITIES_GROUP_LIST (max gB gAf) = .ok grp) :
    bugHandler rel succ bug st =
      match dictIncr st.data_opened grp (weekKey bug.creation_time) with
      | .error e => .error e
      | .ok tbl =>
        .ok ⟨tbl,
             st.sev_lowered_and_increased ++
               (if gAt < gB ∧ gAt < gAf then [flagRow bug] else []),
             st.sev_increased_after_release ++
               (if gAt < gAf then [flagRow bug] else [])⟩ := by
  unfold bugHandler
  rw [hc]
  by_cases hB : gAt < gB <;> by_cases hA : gAt < gAf <;> simp [hg, hB, hA]
/-- C3: for every bug the handler completes on, exactly one cell of the weekly
table is incremented, by exactly one, at the key pair consisting of the
severity group with index max of the before-release and after-release group
indices and the ISO year-week string of the bug's creation time; every other
cell reads unchanged. -/
theorem weekly_table_single_cell_increment (rel succ : Int) (bug : BugData)
    (st st2 : AggState) (gB gAt gAf : Nat) (grp : String)
    (hc : classifyBug bug rel succ = .ok (gB, gAt, gAf))
    (hg : pyListGet SEVERITIES_GROUP_LIST (max gB gAf) = .ok grp)
    (hh : bugHandler rel succ bug st = .ok st2) :
    (∃ v, dictGet2 st.data_opened grp (weekKey bug.creation_time) = .ok v ∧
          dictGet2 st2.data_opened grp (weekKey bug.creation_time) = .ok (v + 1)) ∧
    (∀ g w, ¬(g = grp ∧ w = weekKey bug.creation_time) →
      dictGet2 st2.data_opened g w = dictGet2 st.data_opened g w) := by
  rw [bugHandler_spec rel succ bug st gB gAt gAf grp hc hg] at hh
  cases hD : dictIncr st.data_opened grp (weekKey bug.creation_time) with
  | error e => rw [hD] at hh; simp at hh
  | ok tbl =>
    rw [hD] at hh
    simp only [] at hh
    have h3 : (⟨tbl,
        st.sev_lowered_and_increased ++ (if gAt < gB ∧ gAt < gAf then [flagRow bug] else []),
        st.sev_increased_after_release ++ (if gAt < gAf then [flagRow bug] else [])⟩ : AggState)
        = st2 := by
      injection hh
    subst h3
    constructor
    · obtain ⟨v, hv1, hv2⟩ := dictIncr_cell hD
      exact ⟨v, hv1, hv2⟩
    · intro g w hne
      exact dictIncr_other hD g w hne

theorem weekly_table_single_cell_increment_witness :
    classifyBug bugPlain 30 100 = .ok (2, 2, 2) ∧
    pyListGet SEVERITIES_GROUP_LIST (max 2 2) = .ok "normal" ∧
    bugHandler 30 100 bugPlain aggNormal = .ok ⟨[("normal", [("2019-03", 1)])], [], []⟩ ∧
    ((∃ v, dictGet2 aggNormal.data_opened "normal" (weekKey bugPlain.creation_time) = .ok v ∧
           dictGet2 [("normal", [("2019-03", 1)])] "normal" (weekKey bugPlain.creation_time) =
             .ok (v + 1)) ∧
     (∀ g w, ¬(g = "normal" ∧ w = weekKey bugPlain.creation_time) →
       dictGet2 [("normal", [("2019-03", 1)])] g w = dictGet2 aggNormal.data_opened g w)) :=
  ⟨by decide, by decide, by decide,
   weekly_table_single_cell_increment 30 100 bugPlain aggNormal
     ⟨[("normal", [("2019-03", 1)])], [], []⟩ 2 2 2 "normal"
     (by decide) (by decide) (by decide)⟩
theorem processChange_inwindow (rel succ w : Int) (hw : w ≤ succ) (st : RecState) (c : Change)
    (l : Option Nat) :
    processChange rel succ w (setLast st l) c =
      (processChange rel succ w st c).map (fun p => (setLast p.1 l, p.2)) := by
  obtain ⟨p, b, a, f, lp⟩ := st
  unfold processChange
  by_cases hc : c.field_name = "severity"
  · simp only [hc, if_true]
    cases hO : pyIndex c.removed SEVERITIES_LIST with
    | error e => rfl
    | ok iOld =>
      cases hN : pyIndex c.added SEVERITIES_LIST with
      | error e => rfl
      | ok iNew =>
        simp only [setLast]
        rw [if_neg (not_lt.mpr hw), if_neg (not_lt.mpr hw)]
        cases p <;> by_cases hr : rel < w <;> cases b <;> cases f <;>
          simp [hr, pyMaxOptNat, Except.map]
  · simp [hc, setLast, Except.map]

theorem processChanges_inwindow (rel succ w : Int) (hw : w ≤ succ) (cs : List Change)
    (st : RecState) (l : Option Nat) :
    processChanges rel succ w (setLast st l) cs =
      (processChanges rel succ w st cs).map (fun u => setLast u l) := by
  induction cs generalizing st with
  | nil => rfl
  | cons c cs ih =>
    rw [processChanges, processChanges, processChange_inwindow rel succ w hw st c l]
    cases hP : processChange rel succ w st c with
    | error e => rfl
    | ok q =>
      obtain ⟨st1, br⟩ := q
      cases br with
      | true => rfl
      | false => exact ih st1

theorem processChanges_last_const (rel succ w : Int) (hw : w ≤ succ) (cs : List Change)
    (st st1 : RecState) (hP : processChanges rel succ w st cs = .ok st1) :
    st1.severity_index_last_processed = st.severity_index_last_processed := by
  have h := processChanges_inwindow rel succ w hw cs st st.severity_index_last_processed
  have hst : setLast st st.severity_index_last_processed = st := rfl
  rw [hst, hP] at h
  have h2 : st1 = setLast st1 st.severity_index_last_processed := by
    simpa [Except.map] using h
  have h3 := congrArg RecState.severity_index_last_processed h2
  simpa [setLast] using h3

theorem processHistory_trunc (rel succ : Int) (h : List HistoryItem) (s : RecState)
    (hwf : ∀ item ∈ h, succ < item.when → ∀ c ∈ item.changes, c.field_name = "severity" →
      c.removed ∈ SEVERITIES_LIST ∧ c.added ∈ SEVERITIES_LIST) :
    (processHistory rel succ (setLast s none) (truncHistory succ h) =
      (processHistory rel succ s h).map (fun u => setLast u none)) ∧
    (∀ u, processHistory rel succ s h = .ok u →
      u.severity_index_last_processed =
        match s.severity_index_last_processed, firstOOWold succ h with
        | some v, _ => some v
        | none, some str => (pyIndex str SEVERITIES_LIST).toOption
        | none, none => none) := by
  induction h generalizing s with
  | nil =>
    refine ⟨rfl, ?_⟩
    intro u hu
    injection hu with hu2
    subst hu2
    cases hl : s.severity_index_last_processed <;> simp [firstOOWold, hl]
  | cons item rest ih =>
    have hwfr : ∀ it ∈ rest, succ < it.when → ∀ c ∈ it.changes, c.field_name = "severity" →
        c.removed ∈ SEVERITIES_LIST ∧ c.added ∈ SEVERITIES_LIST :=
      fun it hit => hwf it (List.mem_cons_of_mem item hit)
    by_cases hw : item.when ≤ succ
    · -- in-window item: kept by the truncation, processed identically
      have htr : truncHistory succ (item :: rest) = item :: truncHistory succ rest := by
        simp [truncHistory, hw]
      have hoow : firstOOWold succ (item :: rest) = firstOOWold succ rest := by
        simp [firstOOWold, not_lt.mpr hw]
      rw [htr]
      constructor
      · rw [processHistory, processHistory,
            processChanges_inwindow rel succ item.when hw item.changes s none]
        cases hP : processChanges rel succ item.when s item.changes with
        | error e => rfl
        | ok s1 => exact (ih s1 hwfr).1
      · intro u hu
        rw [processHistory] at hu
        cases hP : processChanges rel succ item.when s item.changes with
        | error e => rw [hP] at hu; cases hu
        | ok s1 =>
          rw [hP] at hu
          have hlast := processChanges_last_const rel succ item.when hw item.changes s s1 hP
          have h2 := (ih s1 hwfr).2 u hu
          rw [hlast] at h2
          rw [hoow]
          exact h2
    · -- out-of-window item: dropped by the truncation, only sets the fallback
      have hw2 : succ < item.when := not_le.mp hw
      have htr : truncHistory succ (item :: rest) = truncHistory succ rest := by
        simp [truncHistory, not_le.mp hw]
      have hstep := processChanges_oow rel succ item.when hw2 s item.changes
        (hwf item (List.mem_cons_self item rest) hw2)
      cases hcs : firstSevOld item.changes with
      | none =>
        have hstep2 : processChanges rel succ item.when s item.changes = .ok s := by
          rw [hstep, hcs]
        have hoow : firstOOWold succ (item :: rest) = firstOOWold succ rest := by
          simp [firstOOWold, hw2, hcs]
        constructor
        · rw [htr, processHistory, hstep2]
          exact (ih s hwfr).1
        · intro u hu
          rw [processHistory, hstep2] at hu
          rw [hoow]
          exact (ih s hwfr).2 u hu
      | some s0 =>
        obtain ⟨c0, hc0, hf0, he0⟩ := firstSevOld_mem hcs
        obtain ⟨hrm, _⟩ := hwf item (List.mem_cons_self item rest) hw2 c0 hc0 hf0
        obtain ⟨i0, hO, _⟩ := mem_pyIndex (he0 ▸ hrm : s0 ∈ SEVERITIES_LIST)
        have hoow : firstOOWold succ (item :: rest) = some s0 := by
          simp [firstOOWold, hw2, hcs]
        by_cases hl : s.severity_index_last_processed = none
        · have hstep2 : processChanges rel succ item.when s item.changes
              = .ok (setLast s ((pyIndex s0 SEVERITIES_LIST).toOption)) := by
            rw [hstep, hcs]
            simp [hl]
          have hsetnone : setLast (setLast s ((pyIndex s0 SEVERITIES_LIST).toOption)) none
              = setLast s none := rfl
          constructor
          · rw [htr, processHistory, hstep2]
            have := (ih (setLast s ((pyIndex s0 SEVERITIES_LIST).toOption)) hwfr).1
            rw [hsetnone] at this
            exact this
          · intro u hu
            rw [processHistory, hstep2] at hu
            have h2 := (ih (setLast s ((pyIndex s0 SEVERITIES_LIST).toOption)) hwfr).2 u hu
            have hlaststep : (setLast s ((pyIndex s0 SEVERITIES_LIST).toOption)).severity_index_last_processed
                = some i0 := by
              simp [setLast, hO, Except.toOption]
            rw [hlaststep] at h2
            have h3 : u.severity_index_last_processed = some i0 := h2
            rw [hoow, hl]
            show u.severity_index_last_processed = (pyIndex s0 SEVERITIES_LIST).toOption
            rw [hO]
            exact h3
        · have hstep2 : processChanges rel succ item.when s item.changes = .ok s := by
            rw [hstep, hcs]
            simp [hl]
          constructor
          · rw [htr, processHistory, hstep2]
            exact (ih s hwfr).1
          · intro u hu
            rw [processHistory, hstep2] at hu
            have h2 := (ih s hwfr).2 u hu
            rw [hoow]
            cases hls : s.severity_index_last_processed with
            | none => exact absurd hls hl
            | some v =>
              rw [hls] at h2
              simpa [hls] using h2

theorem finalize_setLast_none (cur cur2 : Nat) (st : RecState)
    (h : st.severity_index_last_processed.getD cur = cur2) :
    finalize cur2 (setLast st none) = finalize cur st := by
  obtain ⟨p, b, a, f, lp⟩ := st
  simp only [setLast, finalize, Option.getD_none]
  rw [← h]
/-- C2: severity changes strictly after the successor-release cutoff contribute
to none of the three derived severities: the reconstruction of a bug equals the
reconstruction of the same bug with its history truncated at the cutoff and its
current severity replaced by the fallback effective creation severity, the old
value of the first out-of-window change, when one exists. This holds although
the walk keeps iterating history entries after the first out-of-window change:
severity strings are assumed members of the fixed enumeration, as in spec
section 7. -/
theorem out_of_window_changes_only_fallback (bug : BugData) (rel succ : Int)
    (hsev : bug.severity ∈ SEVERITIES_LIST)
    (hwf : ∀ item ∈ bug.history, succ < item.when →
      ∀ c ∈ item.changes, c.field_name = "severity" →
        c.removed ∈ SEVERITIES_LIST ∧ c.added ∈ SEVERITIES_LIST) :
    derivedSeverities (truncatedBug succ bug) rel succ = derivedSeverities bug rel succ := by
  obtain ⟨k, hk, _⟩ := mem_pyIndex hsev
  have hmain := processHistory_trunc rel succ bug.history initRecState hwf
  have hinit : setLast initRecState none = initRecState := rfl
  rw [hinit] at hmain
  unfold derivedSeverities
  simp only [truncatedBug]
  cases hF : firstOOWold succ bug.history with
  | none =>
    simp only [Option.getD_none]
    rw [hk, hmain.1]
    cases hH : processHistory rel succ initRecState bug.history with
    | error e => rfl
    | ok u =>
      have hulast : u.severity_index_last_processed = none := by
        have h2 := hmain.2 u hH
        rw [hF] at h2
        simpa [initRecState] using h2
      have hfin := finalize_setLast_none k k u (by rw [hulast]; rfl)
      simp only [Except.map, hfin]
  | some s0 =>
    obtain ⟨item, hitem, hwi, c, hc, hcf, hcr⟩ := firstOOWold_mem hF
    have hs0 : s0 ∈ SEVERITIES_LIST := hcr ▸ (hwf item hitem hwi c hc hcf).1
    obtain ⟨i0, hO, _⟩ := mem_pyIndex hs0
    simp only [Option.getD_some]
    rw [hk, hO, hmain.1]
    cases hH : processHistory rel succ initRecState bug.history with
    | error e => rfl
    | ok u =>
      have hulast : u.severity_index_last_processed = some i0 := by
        have h2 := hmain.2 u hH
        rw [hF] at h2
        simpa [initRecState, hO, Except.toOption] using h2
      have hfin := finalize_setLast_none k i0 u (by rw [hulast]; rfl)
      simp only [Except.map, hfin]

theorem out_of_window_changes_only_fallback_witness :
    bugMixed.severity ∈ SEVERITIES_LIST ∧
    (∀ item ∈ bugMixed.history, (100 : Int) < item.when →
      ∀ c ∈ item.changes, c.field_name = "severity" →
        c.removed ∈ SEVERITIES_LIST ∧ c.added ∈ SEVERITIES_LIST) ∧
    derivedSeverities (truncatedBug 100 bugMixed) 30 100 = derivedSeverities bugMixed 30 100 :=
  ⟨by decide, by decide,
   out_of_window_changes_only_fallback bugMixed 30 100 (by decide) (by decide)⟩
theorem dictIncr_inv {d r : List (String × List (String × Nat))} {g t : String}
    (h : dictIncr d g t = .ok r) :
    ∃ inner v, pyDictGet d g = .ok inner ∧ pyDictGet inner t = .ok v ∧
      r = pyDictSet d g (pyDictSet inner t (v + 1)) := by
  unfold dictIncr at h
  split at h
  · simp at h
  · rename_i inner h1
    split at h
    · simp at h
    · rename_i v h2
      injection h with h3
      exact ⟨inner, v, h1, h2, h3.symm⟩

theorem dictIncr_eq {d : List (String × List (String × Nat))} {g t : String}
    {inner : List (String × Nat)} {v : Nat}
    (h1 : pyDictGet d g = .ok inner) (h2 : pyDictGet inner t = .ok v) :
    dictIncr d g t = .ok (pyDictSet d g (pyDictSet inner t (v + 1))) := by
  simp [dictIncr, h1, h2]

theorem dictIncr_comm {d d1 d2 : List (String × List (String × Nat))} {g1 t1 g2 t2 : String}
    (h1 : dictIncr d g1 t1 = .ok d1) (h2 : dictIncr d1 g2 t2 = .ok d2) :
    ∃ e1, dictIncr d g2 t2 = .ok e1 ∧ dictIncr e1 g1 t1 = .ok d2 := by
  obtain ⟨i1, v1, hg1, ht1, hd1⟩ := dictIncr_inv h1
  by_cases hgg : g2 = g1
  · subst hgg
    by_cases htt : t2 = t1
    · subst htt
      exact ⟨d1, h1, h2⟩
    · -- same group, distinct weeks
      obtain ⟨i2, v2, hg2, ht2, hd2⟩ := dictIncr_inv h2
      have hi2 : i2 = pyDictSet i1 t1 (v1 + 1) := by
        rw [hd1] at hg2
        rw [pyDictGet_set_self] at hg2
        injection hg2 with h4
        exact h4.symm
      have ht2i1 : pyDictGet i1 t2 = .ok v2 := by
        rw [hi2, pyDictGet_set_other _ t1 t2 _ (fun hx => htt hx.symm)] at ht2
        exact ht2
      refine ⟨pyDictSet d g2 (pyDictSet i1 t2 (v2 + 1)), dictIncr_eq hg1 ht2i1, ?_⟩
      have hga : pyDictGet (pyDictSet d g2 (pyDictSet i1 t2 (v2 + 1))) g2 =
          .ok (pyDictSet i1 t2 (v2 + 1)) := pyDictGet_set_self _ _ _
      have hta : pyDictGet (pyDictSet i1 t2 (v2 + 1)) t1 = .ok v1 := by
        rw [pyDictGet_set_other _ t2 t1 _ htt]
        exact ht1
      rw [dictIncr_eq hga hta, hd2, hd1, hi2]
      rw [pyDictSet_set_self, pyDictSet_set_self]
      rw [pyDictSet_comm i1 t1 t2 (v1 + 1) (v2 + 1) v1 v2 (fun hx => htt hx.symm) ht1 ht2i1]
  · -- distinct groups
    obtain ⟨i2, v2, hg2, ht2, hd2⟩ := dictIncr_inv h2
    have hg2d : pyDictGet d g2 = .ok i2 := by
      rw [hd1, pyDictGet_set_other _ g1 g2 _ (fun hx => hgg hx.symm)] at hg2
      exact hg2
    refine ⟨pyDictSet d g2 (pyDictSet i2 t2 (v2 + 1)), dictIncr_eq hg2d ht2, ?_⟩
    have hga : pyDictGet (pyDictSet d g2 (pyDictSet i2 t2 (v2 + 1))) g1 = .ok i1 := by
      rw [pyDictGet_set_other _ g2 g1 _ hgg]
      exact hg1
    rw [dictIncr_eq hga ht1, hd2, hd1]
    rw [pyDictSet_comm d g1 g2 (pyDictSet i1 t1 (v1 + 1)) (pyDictSet i2 t2 (v2 + 1))
          i1 i2 (fun hx => hgg hx.symm) hg1 hg2d]

theorem bugHandler_ok_inv {rel succ : Int} {bug : BugData} {st st2 : AggState}
    (h : bugHandler rel succ bug st = .ok st2) :
    ∃ gB gAt gAf grp tbl, classifyBug bug rel succ = .ok (gB, gAt, gAf) ∧
      pyListGet SEVERITIES_GROUP_LIST (max gB gAf) = .ok grp ∧
      dictIncr st.data_opened grp (weekKey bug.creation_time) = .ok tbl ∧
      st2 = ⟨tbl,
             st.sev_lowered_and_increased ++ (if gAt < gB ∧ gAt < gAf then [flagRow bug] else []),
             st.sev_increased_after_release ++ (if gAt < gAf then [flagRow bug] else [])⟩ := by
  cases hc : classifyBug bug rel succ with
  | error e =>
    have hb : bugHandler rel succ bug st = .error e := by
      unfold bugHandler
      rw [hc]
    rw [hb] at h
    cases h
  | ok trip =>
    obtain ⟨gB, gAt, gAf⟩ := trip
    cases hg : pyListGet SEVERITIES_GROUP_LIST (max gB gAf) with
    | error e =>
      have hb : bugHandler rel succ bug st = .error e := by
        unfold bugHandler
        rw [hc]
        simp [hg]
      rw [hb] at h
      cases h
    | ok grp =>
      rw [bugHandler_spec rel succ bug st gB gAt gAf grp hc hg] at h
      cases hD : dictIncr st.data_opened grp (weekKey bug.creation_time) with
      | error e => rw [hD] at h; simp at h
      | ok tbl =>
        rw [hD] at h
        injection h with h3
        exact ⟨gB, gAt, gAf, grp, tbl, rfl, hg, hD, h3.symm⟩

theorem processBugs_frame (rel succ : Int) (bugs : List BugData)
    (d : List (String × List (String × Nat))) (a b : List (List String)) (s : AggState)
    (h : processBugs rel succ ⟨d, a, b⟩ bugs = .ok s) :
    ∃ d2 r1 r2, s = ⟨d2, a ++ r1, b ++ r2⟩ ∧
      ∀ a0 b0, processBugs rel succ ⟨d, a0, b0⟩ bugs = .ok ⟨d2, a0 ++ r1, b0 ++ r2⟩ := by
  induction bugs generalizing d a b with
  | nil =>
    injection h with h2
    exact ⟨d, [], [], by simp [← h2], by intro a0 b0; simp [processBugs]⟩
  | cons bug bugs ih =>
    rw [processBugs] at h
    cases hH : bugHandler rel succ bug ⟨d, a, b⟩ with
    | error e => rw [hH] at h; cases h
    | ok st1 =>
      rw [hH] at h
      obtain ⟨gB, gAt, gAf, grp, tbl, hc, hg, hD, hst1⟩ := bugHandler_ok_inv hH
      have hD2 : dictIncr d grp (weekKey bug.creation_time) = .ok tbl := hD
      have h2 : processBugs rel succ
          ⟨tbl, a ++ (if gAt < gB ∧ gAt < gAf then [flagRow bug] else []),
                b ++ (if gAt < gAf then [flagRow bug] else [])⟩ bugs = .ok s := by
        rw [hst1] at h
        exact h
      obtain ⟨d2, r1, r2, hs, hall⟩ := ih tbl _ _ h2
      refine ⟨d2, (if gAt < gB ∧ gAt < gAf then [flagRow bug] else []) ++ r1,
              (if gAt < gAf then [flagRow bug] else []) ++ r2,
              by rw [hs]; simp, ?_⟩
      intro a0 b0
      have hH0 : bugHandler rel succ bug ⟨d, a0, b0⟩ =
          .ok ⟨tbl, a0 ++ (if gAt < gB ∧ gAt < gAf then [flagRow bug] else []),
               b0 ++ (if gAt < gAf then [flagRow bug] else [])⟩ := by
        rw [bugHandler_spec rel succ bug ⟨d, a0, b0⟩ gB gAt gAf grp hc hg]
        simp only [show (AggState.mk d a0 b0).data_opened = d from rfl]
        rw [hD2]
      rw [processBugs, hH0]
      have h5 := hall (a0 ++ (if gAt < gB ∧ gAt < gAf then [flagRow bug] else []))
        (b0 ++ (if gAt < gAf then [flagRow bug] else []))
      rw [List.append_assoc, List.append_assoc] at h5
      exact h5
theorem bugHandler_comm (rel succ : Int) (x y : BugData) (st s1 s2 : AggState)
    (hx : bugHandler rel succ x st = .ok s1) (hy : bugHandler rel succ y s1 = .ok s2) :
    ∃ u1 u2, bugHandler rel succ y st = .ok u1 ∧ bugHandler rel succ x u1 = .ok u2 ∧
      u2.data_opened = s2.data_opened ∧
      u2.sev_lowered_and_increased.Perm s2.sev_lowered_and_increased ∧
      u2.sev_increased_after_release.Perm s2.sev_increased_after_release := by
  obtain ⟨xB, xAt, xAf, grpx, tblx, hcx, hgx, hDx, hs1⟩ := bugHandler_ok_inv hx
  obtain ⟨yB, yAt, yAf, grpy, tbly, hcy, hgy, hDy, hs2⟩ := bugHandler_ok_inv hy
  have hDy2 : dictIncr tblx grpy (weekKey y.creation_time) = .ok tbly := by
    rw [hs1] at hDy
    exact hDy
  obtain ⟨e1, hE1, hE2⟩ := dictIncr_comm hDx hDy2
  have hu1 : bugHandler rel succ y st =
      .ok ⟨e1,
           st.sev_lowered_and_increased ++ (if yAt < yB ∧ yAt < yAf then [flagRow y] else []),
           st.sev_increased_after_release ++ (if yAt < yAf then [flagRow y] else [])⟩ := by
    rw [bugHandler_spec rel succ y st yB yAt yAf grpy hcy hgy, hE1]
  have hu2 : bugHandler rel succ x
      ⟨e1,
       st.sev_lowered_and_increased ++ (if yAt < yB ∧ yAt < yAf then [flagRow y] else []),
       st.sev_increased_after_release ++ (if yAt < yAf then [flagRow y] else [])⟩ =
      .ok ⟨tbly,
           (st.sev_lowered_and_increased ++ (if yAt < yB ∧ yAt < yAf then [flagRow y] else []))
             ++ (if xAt < xB ∧ xAt < xAf then [flagRow x] else []),
           (st.sev_increased_after_release ++ (if yAt < yAf then [flagRow y] else []))
             ++ (if xAt < xAf then [flagRow x] else [])⟩ := by
    rw [bugHandler_spec rel succ x _ xB xAt xAf grpx hcx hgx]
    simp only [show (AggState.mk e1
        (st.sev_lowered_and_increased ++ (if yAt < yB ∧ yAt < yAf then [flagRow y] else []))
        (st.sev_increased_after_release ++ (if yAt < yAf then [flagRow y] else []))).data_opened
        = e1 from rfl]
    rw [hE2]
  refine ⟨_, _, hu1, hu2, ?_, ?_, ?_⟩
  · rw [hs2, hs1]
  · rw [hs2, hs1]
    simp only [List.append_assoc]
    exact List.Perm.append_left _ List.perm_append_comm
  · rw [hs2, hs1]
    simp only [List.append_assoc]
    exact List.Perm.append_left _ List.perm_append_comm

theorem processBugs_perm (rel succ : Int) {l1 l2 : List BugData} (hp : l1.Perm l2) :
    ∀ (st s1 : AggState), processBugs rel succ st l1 = .ok s1 →
    ∃ s2, processBugs rel succ st l2 = .ok s2 ∧ s2.data_opened = s1.data_opened ∧
      s2.sev_lowered_and_increased.Perm s1.sev_lowered_and_increased ∧
      s2.sev_increased_after_release.Perm s1.sev_increased_after_release := by
  induction hp with
  | nil =>
    intro st s1 h
    exact ⟨s1, h, rfl, List.Perm.refl _, List.Perm.refl _⟩
  | cons x hp ih =>
    intro st s1 h
    rw [processBugs] at h ⊢
    cases hH : bugHandler rel succ x st with
    | error e => rw [hH] at h; simp at h
    | ok st1 =>
      rw [hH] at h
      exact ih st1 s1 h
  | swap x y l =>
    intro st s1 h
    rw [processBugs] at h
    cases hH1 : bugHandler rel succ y st with
    | error e => rw [hH1] at h; simp at h
    | ok a1 =>
      rw [hH1] at h
      have h2 : processBugs rel succ a1 (x :: l) = .ok s1 := h
      rw [processBugs] at h2
      cases hH2 : bugHandler rel succ x a1 with
      | error e => rw [hH2] at h2; simp at h2
      | ok a2 =>
        rw [hH2] at h2
        obtain ⟨u1, u2, hU1, hU2, hd, hq1, hq2⟩ := bugHandler_comm rel succ y x st a1 a2 hH1 hH2
        obtain ⟨da, aa, ba⟩ := a2
        have h3 : processBugs rel succ ⟨da, aa, ba⟩ l = .ok s1 := h2
        obtain ⟨d2, r1, r2, hs1eq, hall⟩ := processBugs_frame rel succ l da aa ba s1 h3
        obtain ⟨du, au, bu⟩ := u2
        have hdd : du = da := hd
        subst hdd
        have hrun := hall au bu
        have e1 : processBugs rel succ st (x :: y :: l) = processBugs rel succ u1 (y :: l) := by
          rw [processBugs, hU1]
        have e2 : processBugs rel succ u1 (y :: l) = processBugs rel succ ⟨du, au, bu⟩ l := by
          rw [processBugs, hU2]
        refine ⟨⟨d2, au ++ r1, bu ++ r2⟩, by rw [e1, e2]; exact hrun, ?_, ?_, ?_⟩
        · rw [hs1eq]
        · rw [hs1eq]
          exact List.Perm.append_right r1 hq1
        · rw [hs1eq]
          exact List.Perm.append_right r2 hq2
  | trans hp1 hp2 ih1 ih2 =>
    intro st s1 h
    obtain ⟨s2, h2, hd2, hr1, hr2⟩ := ih1 st s1 h
    obtain ⟨s3, h3, hd3, hq1, hq2⟩ := ih2 st s2 h2
    exact ⟨s3, h3, hd3.trans hd2, hq1.trans hr1, hq2.trans hr2⟩

theorem processBugs_append (rel succ : Int) (a b : List BugData) (st : AggState) :
    processBugs rel succ st (a ++ b) =
      match processBugs rel succ st a with
      | .error e => .error e
      | .ok m => processBugs rel succ m b := by
  induction a generalizing st with
  | nil => rfl
  | cons x a ih =>
    rw [List.cons_append, processBugs, processBugs]
    cases hH : bugHandler rel succ x st with
    | error e => rfl
    | ok st1 => exact ih st1

theorem feedBatches_eq_join (rel succ : Int) (batches : List (List BugData)) (st : AggState) :
    feedBatches rel succ st batches = processBugs rel succ st batches.flatten := by
  induction batches generalizing st with
  | nil => rfl
  | cons batch rest ih =>
    rw [feedBatches]
    have hj : (batch :: rest).flatten = batch ++ rest.flatten := by simp
    rw [hj, processBugs_append]
    cases hP : processBugs rel succ st batch with
    | error e => rfl
    | ok m => exact ih m
/-- C8: sub-windowing is purely a fetch-size optimization: feeding any
partition of a set of bug records batch after batch into the shared
aggregation state produces the same weekly table and the same flagged-bug
multisets as processing the whole set in one batch, whenever the single-batch
run completes. -/
theorem subwindow_partitioning_invariant (rel succ : Int)
    (batches : List (List BugData)) (whole : List BugData) (st s1 : AggState)
    (hperm : whole.Perm batches.flatten)
    (h : processBugs rel succ st whole = .ok s1) :
    ∃ s2, feedBatches rel succ st batches = .ok s2 ∧
      s2.data_opened = s1.data_opened ∧
      s2.sev_lowered_and_increased.Perm s1.sev_lowered_and_increased ∧
      s2.sev_increased_after_release.Perm s1.sev_increased_after_release := by
  obtain ⟨s2, h2, hd, hp1, hp2⟩ := processBugs_perm rel succ hperm st s1 h
  refine ⟨s2, ?_, hd, hp1, hp2⟩
  rw [feedBatches_eq_join]
  exact h2

theorem subwindow_partitioning_invariant_witness :
    ([bugPlain, bugPlain2].Perm ([[bugPlain2], [bugPlain]] : List (List BugData)).flatten) ∧
    processBugs 30 100 aggNormal [bugPlain, bugPlain2] =
      .ok ⟨[("normal", [("2019-03", 2)])], [], []⟩ ∧
    (∃ s2, feedBatches 30 100 aggNormal [[bugPlain2], [bugPlain]] = .ok s2 ∧
      s2.data_opened = (AggState.mk [("normal", [("2019-03", 2)])] [] []).data_opened ∧
      s2.sev_lowered_and_increased.Perm
        (AggState.mk [("normal", [("2019-03", 2)])] [] []).sev_lowered_and_increased ∧
      s2.sev_increased_after_release.Perm
        (AggState.mk [("normal", [("2019-03", 2)])] [] []).sev_increased_after_release) :=
  ⟨by decide, by decide,
   subwindow_partitioning_invariant 30 100 [[bugPlain2], [bugPlain]] [bugPlain, bugPlain2]
     aggNormal ⟨[("normal", [("2019-03", 2)])], [], []⟩ (by decide) (by decide)⟩
